import Mathlib

/-!
# Shallow embedding of the astro-assembly governance contract

This file embeds the proposal lifecycle state machine of
`contracts/assembly/src/contract.rs` (astroport-governance) in Lean 4 and
proves the specification claims about it.

Modelling conventions:
* `Uint128` amounts are `Nat` values together with the checked arithmetic of
  `cosmwasm_std` (`checkedAdd` / `checkedSub` fail by returning `none` exactly
  when the result would leave `[0, 2^128)`).
* `Decimal` fixed-point values are represented by their atomic integer
  (the value times `10^18`); `Decimal::from_ratio` is `decFromRatio`
  (numerator times `10^18` divided by the denominator, truncating), and the
  `PartialOrd` comparisons on `Decimal` are `Nat` comparisons of atomics.
* External contracts (the xASTRO token, the builder-unlock contract, the
  vxASTRO voting escrow, the IBC channel registry) are a `Querier` record of
  total functions: we work in the universe where external queries succeed, as
  any query failure aborts the whole transition unchanged.
* Storage (`PROPOSALS`, `PROPOSAL_COUNT`, `CONFIG`) is a `State` record; the
  proposal map is an association list kept sorted by key, mirroring the
  ascending-order iteration of `cw_storage_plus::Map`.
* Fallible entry points return `Except ContractError (State × List OutMsg)`;
  an error carries no state, mirroring transactional rollback.
* Opaque `CosmosMsg` payloads inside proposal actions are modelled by `Nat`
  identifiers: the contract never inspects them, it only orders and forwards
  them.
-/

/-- 2^128, the modulus of `Uint128`. -/
def U128 : Nat := 2 ^ 128

/-- 2^64, the modulus of `Uint64`. -/
def U64 : Nat := 2 ^ 64

/-- `Uint128::checked_add`: fails when the sum does not fit in 128 bits. -/
def checkedAdd (a b : Nat) : Option Nat :=
  if a + b < U128 then some (a + b) else none

/-- `Uint128::checked_sub`: fails on underflow. -/
def checkedSub (a b : Nat) : Option Nat :=
  if b ≤ a then some (a - b) else none

/-- `Decimal::DECIMAL_FRACTIONAL = 10^18`: one unit in atomics. -/
def DECIMAL_FRACTIONAL : Nat := 10 ^ 18

/-- `Decimal::from_ratio` on atomics: `numerator * 10^18 / denominator`,
truncating (the `Uint256` intermediate of cosmwasm never overflows for the
operands the contract feeds it). -/
def decFromRatio (num den : Nat) : Nat :=
  num * DECIMAL_FRACTIONAL / den

/-- `ProposalStatus` from `astroport_governance::assembly` (the revision used
by `contract.rs`, which includes the IBC statuses). -/
inductive ProposalStatus where
  | Active
  | Passed
  | Rejected
  | InProgress
  | Executed
  | Failed
  | Expired
deriving DecidableEq, Repr

/-- `ProposalVoteOption`. -/
inductive ProposalVoteOption where
  | For
  | Against
deriving DecidableEq, Repr

/-- `ProposalMessage`: an execution order key plus an opaque executable
instruction (modelled by a `Nat` payload identifier). -/
structure ProposalMessage where
  order : Nat
  msg : Nat
deriving DecidableEq, Repr

/-- `Proposal`, with the fields `contract.rs` reads and writes. -/
structure Proposal where
  proposal_id : Nat
  submitter : String
  status : ProposalStatus
  for_power : Nat
  against_power : Nat
  for_voters : List String
  against_voters : List String
  start_block : Nat
  start_time : Nat
  end_block : Nat
  title : String
  description : String
  link : Option String
  messages : Option (List ProposalMessage)
  deposit_amount : Nat
  ibc_channel : Option String
deriving DecidableEq, Repr

/-- `Config` of the assembly contract (quorum/threshold as Decimal atomics). -/
structure Config where
  xastro_token_addr : String
  vxastro_token_addr : Option String
  ibc_controller : Option String
  builder_unlock_addr : String
  proposal_voting_period : Nat
  proposal_effective_delay : Nat
  proposal_expiration_period : Nat
  proposal_required_deposit : Nat
  proposal_required_quorum : Nat
  proposal_required_threshold : Nat
  whitelisted_links : List String
deriving DecidableEq, Repr

/-- Allocation parameters returned by the builder-unlock contract:
`params.amount` is the total ASTRO allocated to the account. -/
structure AllocationParams where
  amount : Nat
deriving DecidableEq, Repr

/-- Allocation status returned by the builder-unlock contract. -/
structure AllocationStatus where
  astro_withdrawn : Nat
deriving DecidableEq, Repr

/-- `AllocationResponse` of the builder-unlock contract. -/
structure AllocationResponse where
  params : AllocationParams
  status : AllocationStatus
deriving DecidableEq, Repr

/-- The external contracts the assembly queries, as total functions (the
universe where external queries succeed).

* `balanceAt addr block` embeds `XAstroTokenQueryMsg::BalanceAt`; per the
  xASTRO token contract this returns the balance checkpoint of the *previous*
  block, so querying it with `proposal.start_block` yields the snapshot at
  `start_block - 1` (see the comment in `calc_voting_power`).
* `totalSupplyAt block` embeds `XAstroTokenQueryMsg::TotalSupplyAt`.
* `allocation addr` embeds `BuilderUnlockQueryMsg::Allocation`.
* `remainingAstroTokens` embeds `BuilderUnlockQueryMsg::State {}`'s
  `remaining_astro_tokens` field.
* `userVotingPowerAt addr time` embeds `VotingEscrowQueryMsg::UserVotingPowerAt`.
* `userDepositAtHeight addr height` embeds
  `VotingEscrowQueryMsg::UserDepositAtHeight`.
* `totalVotingPowerAt time` embeds `VotingEscrowQueryMsg::TotalVotingPowerAt`.
* `listChannels controller` embeds the IBC `ListChannels` query for the
  controller's wasm port, as the list of channel ids. -/
structure Querier where
  balanceAt : String → Nat → Nat
  totalSupplyAt : Nat → Nat
  allocation : String → AllocationResponse
  remainingAstroTokens : Nat
  userVotingPowerAt : String → Nat → Nat
  userDepositAtHeight : String → Nat → Nat
  totalVotingPowerAt : Nat → Nat
  listChannels : String → List String

/-- Block environment (`Env`). -/
structure Env where
  blockHeight : Nat
  blockTime : Nat
  contractAddress : String
deriving DecidableEq, Repr

/-- `MessageInfo`. -/
structure MsgInfo where
  sender : String
deriving DecidableEq, Repr

/-- The proposal store: an association list kept in strictly ascending key
order, mirroring `cw_storage_plus::Map<u64, Proposal>`. -/
abbrev Store := List (Nat × Proposal)

/-- `PROPOSALS.load`. -/
def storeLookup : Store → Nat → Option Proposal
  | [], _ => none
  | (k, v) :: rest, i => if k = i then some v else storeLookup rest i

/-- `PROPOSALS.save`: insert in key order (or replace an existing key). -/
def storeSave : Store → Nat → Proposal → Store
  | [], i, p => [(i, p)]
  | (k, v) :: rest, i, p =>
    if i < k then (i, p) :: (k, v) :: rest
    else if i = k then (i, p) :: rest
    else (k, v) :: storeSave rest i p

/-- `PROPOSALS.remove`. -/
def storeRemove : Store → Nat → Store
  | [], _ => []
  | (k, v) :: rest, i =>
    if k = i then storeRemove rest i else (k, v) :: storeRemove rest i

/-- `PROPOSALS.range` with an optional inclusive lower bound, ascending order
(on the sorted store, range is exactly the keys ≥ the bound). -/
def storeRange (l : Store) (start : Option Nat) : Store :=
  match start with
  | none => l
  | some s => l.filter (fun kv => s ≤ kv.1)

/-- Full contract state: config singleton, proposal counter, proposal map. -/
structure State where
  config : Config
  proposalCount : Nat
  proposals : Store
deriving DecidableEq, Repr

/-- `ContractError` (the variants `contract.rs` can produce; `overflow`
stands for the checked-arithmetic `StdError`, `notFound` for a failing
`PROPOSALS.load`). -/
inductive ContractError where
  | overflow
  | notFound
  | invalidProposal
  | unauthorized
  | proposalNotActive
  | votingPeriodEnded
  | userAlreadyVoted
  | noVotingPower
  | votingPeriodNotEnded
  | executeProposalExpired
  | insufficientDeposit
  | proposalNotPassed
  | proposalNotCompleted
  | proposalDelayNotEnded
  | whitelistEmpty
  | messagesCheckPassed
  | invalidChannel (channel : String)
  | missingIBCController
  | notUpdatedProposalStatus
  | invalidIBCProposalStatus
  | invalidIBCController
deriving DecidableEq, Repr

/-- Outbound instructions the contract emits (`Response::messages`). -/
inductive OutMsg where
  /-- Direct execution of a proposal action's opaque instruction. -/
  | proposalMsg (payload : Nat)
  /-- `Cw20ExecuteMsg::Transfer` on a token contract (deposit refund). -/
  | transfer (token recipient : String) (amount : Nat)
  /-- `ibc_controller_package::ExecuteMsg::IbcExecuteProposal` sent to the
  controller with the channel, the proposal id and the ordered actions. -/
  | ibcExecuteProposal (controller channel : String) (proposal_id : Nat)
      (messages : List ProposalMessage)
  /-- The self-call `ExecuteMsg::CheckMessagesPassed {}` sentinel. -/
  | checkPassedSelfCall (contractAddr : String)
deriving DecidableEq, Repr

/-- Result type of every entry point: either an error (the transaction rolls
back, no state survives) or the new state plus emitted instructions. -/
abbrev ExecResult := Except ContractError (State × List OutMsg)

/-- Stable insertion of a message in front of the first element of equal or
larger order key. -/
def insertMsg (m : ProposalMessage) : List ProposalMessage → List ProposalMessage
  | [] => [m]
  | x :: xs => if m.order ≤ x.order then m :: x :: xs else x :: insertMsg m xs

/-- `messages.sort_by(|a, b| a.order.cmp(&b.order))`: Rust's `sort_by` is a
stable sort, and a stable sort by a total key is extensionally unique, so the
stable insertion sort below computes the same list. -/
def sortMsgs (l : List ProposalMessage) : List ProposalMessage :=
  l.foldr insertMsg []

/-- Modelled from the spec: `Proposal::validate` is part of
`astroport_governance::assembly` at the revision `contract.rs` uses and is not
under `src/`; per §4.2 (Submit) it rejects a proposal whose link fails
whitelist validation, the whitelist being a list of allowed URL prefixes. -/
def proposalValidate (whitelist : List String) (p : Proposal) : Bool :=
  match p.link with
  | some l => whitelist.any (fun w => l.startsWith w)
  | none => true

/-- Modelled from the spec: `helpers::validate_links` is not under `src/`;
per §2 the whitelist entries are URL prefixes, modelled as requiring
non-empty entries. -/
def validateLinks (links : List String) : Bool :=
  links.all (fun l => l.length ≠ 0)

/-- Modelled from the spec: `Config::validate` is not under `src/`; per §3
the required quorum and threshold are ratios in `[0, 1]`. -/
def configValidate (c : Config) : Bool :=
  c.proposal_required_quorum ≤ DECIMAL_FRACTIONAL &&
    c.proposal_required_threshold ≤ DECIMAL_FRACTIONAL

/-- `check_controller_supports_channel`. -/
def checkControllerSupportsChannel (q : Querier) (controller channel : String) :
    Except ContractError Unit :=
  if (q.listChannels controller).contains channel then .ok ()
  else .error (.invalidChannel channel)

/-- `calc_voting_power`: an address' voting power for a proposal, summing the
xASTRO balance snapshot, the live builder-unlock allocation (total amount
minus withdrawn, only when an allocation with non-zero amount exists) and,
when the voting escrow is configured, the escrow voting-power snapshot at
`start_time - 1` plus the xASTRO locked in the escrow at `start_block`.
`none` is a checked-arithmetic failure. -/
def calc_voting_power (q : Querier) (config : Config) (sender : String)
    (p : Proposal) : Option Nat :=
  let xastro := q.balanceAt sender p.start_block
  let alloc := q.allocation sender
  let t1 : Option Nat :=
    if alloc.params.amount ≠ 0 then
      (checkedAdd xastro alloc.params.amount).bind
        (fun t => checkedSub t alloc.status.astro_withdrawn)
    else some xastro
  match config.vxastro_token_addr with
  | some _ =>
    t1.bind fun t =>
      let vp := q.userVotingPowerAt sender (p.start_time - 1)
      (if vp ≠ 0 then checkedAdd t vp else some t).bind fun t2 =>
        checkedAdd t2 (q.userDepositAtHeight sender p.start_block)
  | none => t1

/-- `calc_total_voting_power_at`: total eligible voting power at the
proposal's snapshot. -/
def calc_total_voting_power_at (q : Querier) (config : Config) (p : Proposal) :
    Option Nat :=
  let total := q.totalSupplyAt (p.start_block - 1)
  let t1 : Option Nat :=
    if q.remainingAstroTokens ≠ 0 then checkedAdd total q.remainingAstroTokens
    else some total
  match config.vxastro_token_addr with
  | some _ =>
    t1.bind fun t =>
      let vp := q.totalVotingPowerAt (p.start_time - 1)
      if vp ≠ 0 then checkedAdd t vp else some t
  | none => t1

/-- The proposal record built by `submit_proposal` (contract.rs lines
242-259): Active, zero tallies, voting window derived from the config at
submission time. -/
def submittedProposal (s : State) (env : Env) (sender : String)
    (deposit_amount : Nat) (title description : String) (link : Option String)
    (messages : Option (List ProposalMessage)) (ibc_channel : Option String) :
    Proposal :=
  { proposal_id := s.proposalCount + 1
    submitter := sender
    status := .Active
    for_power := 0
    against_power := 0
    for_voters := []
    against_voters := []
    start_block := env.blockHeight
    start_time := env.blockTime
    end_block := env.blockHeight + s.config.proposal_voting_period
    title := title
    description := description
    link := link
    messages := messages
    deposit_amount := deposit_amount
    ibc_channel := ibc_channel }

/-- `submit_proposal` (reached through `receive_cw20` /
`Cw20HookMsg::SubmitProposal`): deposit-gated proposal creation. -/
def submit_proposal (q : Querier) (s : State) (env : Env) (info : MsgInfo)
    (sender : String) (deposit_amount : Nat) (title description : String)
    (link : Option String) (messages : Option (List ProposalMessage))
    (ibc_channel : Option String) : ExecResult :=
  let config := s.config
  if info.sender ≠ config.xastro_token_addr then .error .unauthorized
  else if deposit_amount < config.proposal_required_deposit then
    .error .insufficientDeposit
  else if s.proposalCount + 1 < U64 then
    let count := s.proposalCount + 1
    let channelCheck : Except ContractError Unit :=
      match ibc_channel with
      | some channel =>
        match config.ibc_controller with
        | some controller => checkControllerSupportsChannel q controller channel
        | none => .error .missingIBCController
      | none => .ok ()
    match channelCheck with
    | .error e => .error e
    | .ok () =>
      let proposal : Proposal := submittedProposal s env sender deposit_amount
        title description link messages ibc_channel
      if proposalValidate config.whitelisted_links proposal then
        .ok ({ s with proposalCount := count,
                      proposals := storeSave s.proposals count proposal }, [])
      else .error .invalidProposal
  else .error .overflow

/-- `cast_vote`. -/
def cast_vote (q : Querier) (s : State) (env : Env) (info : MsgInfo)
    (proposal_id : Nat) (vote_option : ProposalVoteOption) : ExecResult :=
  match storeLookup s.proposals proposal_id with
  | none => .error .notFound
  | some proposal =>
    if proposal.status ≠ .Active then .error .proposalNotActive
    else if proposal.submitter = info.sender then .error .unauthorized
    else if proposal.end_block < env.blockHeight then .error .votingPeriodEnded
    else if proposal.for_voters.contains info.sender ||
        proposal.against_voters.contains info.sender then
      .error .userAlreadyVoted
    else
      match calc_voting_power q s.config info.sender proposal with
      | none => .error .overflow
      | some voting_power =>
        if voting_power = 0 then .error .noVotingPower
        else
          match vote_option with
          | .For =>
            match checkedAdd proposal.for_power voting_power with
            | none => .error .overflow
            | some fp =>
              let p' := { proposal with
                for_power := fp,
                for_voters := proposal.for_voters ++ [info.sender] }
              .ok ({ s with
                proposals := storeSave s.proposals proposal_id p' }, [])
          | .Against =>
            match checkedAdd proposal.against_power voting_power with
            | none => .error .overflow
            | some ap =>
              let p' := { proposal with
                against_power := ap,
                against_voters := proposal.against_voters ++ [info.sender] }
              .ok ({ s with
                proposals := storeSave s.proposals proposal_id p' }, [])

/-- `end_proposal`: closes voting, computes quorum and threshold with the
zero-guards of the source, sets Passed/Rejected and refunds the deposit. -/
def end_proposal (q : Querier) (s : State) (env : Env) (proposal_id : Nat) :
    ExecResult :=
  match storeLookup s.proposals proposal_id with
  | none => .error .notFound
  | some proposal =>
    if proposal.status ≠ .Active then .error .proposalNotActive
    else if env.blockHeight ≤ proposal.end_block then
      .error .votingPeriodNotEnded
    else
      let config := s.config
      let for_votes := proposal.for_power
      let against_votes := proposal.against_power
      let total_votes := for_votes + against_votes
      match calc_total_voting_power_at q config proposal with
      | none => .error .overflow
      | some total_voting_power =>
        let proposal_quorum : Nat :=
          if total_voting_power ≠ 0 then decFromRatio total_votes total_voting_power
          else 0
        let proposal_threshold : Nat :=
          if total_votes ≠ 0 then decFromRatio for_votes total_votes
          else 0
        let newStatus : ProposalStatus :=
          if config.proposal_required_quorum ≤ proposal_quorum ∧
              config.proposal_required_threshold < proposal_threshold then
            .Passed
          else .Rejected
        let p' := { proposal with status := newStatus }
        .ok ({ s with proposals := storeSave s.proposals proposal_id p' },
          [.transfer config.xastro_token_addr proposal.submitter
              proposal.deposit_amount])

/-- `execute_proposal`: delay/expiration window, then local execution of the
stably sorted actions or hand-off to the IBC controller. -/
def execute_proposal (_q : Querier) (s : State) (env : Env) (proposal_id : Nat) :
    ExecResult :=
  match storeLookup s.proposals proposal_id with
  | none => .error .notFound
  | some proposal =>
    if proposal.status ≠ .Passed then .error .proposalNotPassed
    else if env.blockHeight <
        proposal.end_block + s.config.proposal_effective_delay then
      .error .proposalDelayNotEnded
    else if proposal.end_block + s.config.proposal_effective_delay +
        s.config.proposal_expiration_period < env.blockHeight then
      .error .executeProposalExpired
    else
      match proposal.ibc_channel with
      | some channel =>
        let newStatus : ProposalStatus :=
          if proposal.messages.isSome then .InProgress else .Executed
        let p' := { proposal with status := newStatus }
        let s' : State :=
          { s with proposals := storeSave s.proposals proposal_id p' }
        match proposal.messages with
        | some msgs =>
          match s.config.ibc_controller with
          | some controller =>
            .ok (s', [.ibcExecuteProposal controller channel proposal_id
                (sortMsgs msgs)])
          | none => .error .missingIBCController
        | none => .ok (s', [])
      | none =>
        let p' := { proposal with status := ProposalStatus.Executed }
        let s' : State :=
          { s with proposals := storeSave s.proposals proposal_id p' }
        match proposal.messages with
        | some msgs =>
          .ok (s', (sortMsgs msgs).map (fun m => .proposalMsg m.msg))
        | none => .ok (s', [])

/-- `check_messages`: dry-run validation, appending the failing self-call. -/
def check_messages (s : State) (env : Env)
    (messages : List ProposalMessage) : ExecResult :=
  .ok (s, (sortMsgs messages).map (fun m => OutMsg.proposalMsg m.msg) ++
    [.checkPassedSelfCall env.contractAddress])

/-- `remove_completed_proposal`: relabels any proposal past the
execute-expiration boundary as Expired, then deletes it when Expired or
Rejected. -/
def remove_completed_proposal (s : State) (env : Env) (proposal_id : Nat) :
    ExecResult :=
  let config := s.config
  match storeLookup s.proposals proposal_id with
  | none => .error .notFound
  | some proposal0 =>
    let proposal :=
      if proposal0.end_block + config.proposal_effective_delay +
          config.proposal_expiration_period < env.blockHeight then
        { proposal0 with status := ProposalStatus.Expired }
      else proposal0
    if proposal.status ≠ .Expired ∧ proposal.status ≠ .Rejected then
      .error .proposalNotCompleted
    else .ok ({ s with proposals := storeRemove s.proposals proposal_id }, [])

/-- Sparse config update message (`UpdateConfig` fields used by
`contract.rs`; decimal fields carry the parsed atomics). -/
structure UpdateConfigMsg where
  ibc_controller : Option String
  builder_unlock_addr : Option String
  proposal_voting_period : Option Nat
  proposal_effective_delay : Option Nat
  proposal_expiration_period : Option Nat
  proposal_required_deposit : Option Nat
  proposal_required_quorum : Option Nat
  proposal_required_threshold : Option Nat
  whitelist_add : Option (List String)
  whitelist_remove : Option (List String)
deriving DecidableEq, Repr

/-- Tail of `update_config` after the whitelist-add step: whitelist removal,
emptiness check, `Config::validate`, save. -/
def updateConfigRest (s : State) (c : Config) (u : UpdateConfigMsg) :
    ExecResult :=
  match u.whitelist_remove with
  | some rem =>
    let c' := { c with whitelisted_links :=
      (c.whitelisted_links.filter (fun l => ¬ rem.contains l)) }
    if c'.whitelisted_links.isEmpty then .error .whitelistEmpty
    else if configValidate c' then .ok ({ s with config := c' }, [])
    else .error .invalidProposal
  | none =>
    if configValidate c then .ok ({ s with config := c }, [])
    else .error .invalidProposal

/-- The scalar-field portion of `update_config`: each provided field
overwrites the corresponding config field. -/
def applyConfigUpdates (c0 : Config) (u : UpdateConfigMsg) : Config :=
  let c1 := match u.ibc_controller with
    | some a => { c0 with ibc_controller := some a }
    | none => c0
  let c2 := match u.builder_unlock_addr with
    | some a => { c1 with builder_unlock_addr := a }
    | none => c1
  let c3 := match u.proposal_voting_period with
    | some v => { c2 with proposal_voting_period := v }
    | none => c2
  let c4 := match u.proposal_effective_delay with
    | some v => { c3 with proposal_effective_delay := v }
    | none => c3
  let c5 := match u.proposal_expiration_period with
    | some v => { c4 with proposal_expiration_period := v }
    | none => c4
  let c6 := match u.proposal_required_deposit with
    | some v => { c5 with proposal_required_deposit := v }
    | none => c5
  let c7 := match u.proposal_required_quorum with
    | some v => { c6 with proposal_required_quorum := v }
    | none => c6
  match u.proposal_required_threshold with
  | some v => { c7 with proposal_required_threshold := v }
  | none => c7

/-- `update_config`: self-governed sparse update. -/
def update_config (s : State) (env : Env) (info : MsgInfo)
    (u : UpdateConfigMsg) : ExecResult :=
  if info.sender ≠ env.contractAddress then .error .unauthorized
  else
    let c8 := applyConfigUpdates s.config u
    match u.whitelist_add with
    | some add =>
      if validateLinks add then
            let c9 := { c8 with whitelisted_links := (c8.whitelisted_links ++
          add.filter (fun l => ¬ c8.whitelisted_links.contains l)) }
        updateConfigRest s c9 u
      else .error .invalidProposal
    | none => updateConfigRest s c8 u

/-- `update_ibc_proposal_status`: the controller-only completion callback. -/
def update_ibc_proposal_status (s : State) (info : MsgInfo) (id : Nat)
    (new_status : ProposalStatus) : ExecResult :=
  if s.config.ibc_controller = some info.sender then
    match storeLookup s.proposals id with
    | none => .error .notFound
    | some proposal =>
      if proposal.status ≠ .InProgress then .error .notUpdatedProposalStatus
      else
        match new_status with
        | .Executed | .Failed =>
          let p' := { proposal with status := new_status }
          .ok ({ s with proposals := storeSave s.proposals id p' }, [])
        | _ => .error .invalidIBCProposalStatus
  else .error .invalidIBCController

/-- `ExecuteMsg` (with `Receive`'s `SubmitProposal` hook inlined). -/
inductive ExecMsg where
  | receiveSubmit (sender : String) (amount : Nat) (title description : String)
      (link : Option String) (messages : Option (List ProposalMessage))
      (ibc_channel : Option String)
  | castVote (proposal_id : Nat) (vote : ProposalVoteOption)
  | endProposal (proposal_id : Nat)
  | executeProposal (proposal_id : Nat)
  | checkMessages (messages : List ProposalMessage)
  | checkMessagesPassed
  | removeCompletedProposal (proposal_id : Nat)
  | updateConfig (u : UpdateConfigMsg)
  | ibcProposalCompleted (proposal_id : Nat) (status : ProposalStatus)
deriving DecidableEq, Repr

/-- The `execute` entry point: one atomic transition of the state machine. -/
def executeMsg (q : Querier) (s : State) (env : Env) (info : MsgInfo) :
    ExecMsg → ExecResult
  | .receiveSubmit sender amount title description link messages channel =>
    submit_proposal q s env info sender amount title description link messages
      channel
  | .castVote id vote => cast_vote q s env info id vote
  | .endProposal id => end_proposal q s env id
  | .executeProposal id => execute_proposal q s env id
  | .checkMessages messages => check_messages s env messages
  | .checkMessagesPassed => .error .messagesCheckPassed
  | .removeCompletedProposal id => remove_completed_proposal s env id
  | .updateConfig u => update_config s env info u
  | .ibcProposalCompleted id st => update_ibc_proposal_status s info id st

/-- `ProposalListResponse`. -/
structure ProposalListResponse where
  proposal_count : Nat
  proposal_list : List Proposal
deriving DecidableEq, Repr

/-- Default page size of `query_proposals`. -/
def DEFAULT_LIMIT : Nat := 10

/-- Hard page-size cap of `query_proposals`. -/
def MAX_LIMIT : Nat := 30

/-- `query_proposals`: paginated ascending listing with an inclusive `start`
bound. -/
def query_proposals (s : State) (start : Option Nat) (limit : Option Nat) :
    ProposalListResponse :=
  let lim := min (limit.getD DEFAULT_LIMIT) MAX_LIMIT
  { proposal_count := s.proposalCount
    proposal_list := ((storeRange s.proposals start).take lim).map (·.2) }

/-- Well-formedness of the stored state: strictly ascending keys, every key
at most the proposal counter, and every stored proposal recording its own
key as `proposal_id`. -/
structure WF (s : State) : Prop where
  sorted : s.proposals.Pairwise (fun a b => a.1 < b.1)
  bounded : ∀ kv ∈ s.proposals, kv.1 ≤ s.proposalCount
  keyed : ∀ kv ∈ s.proposals, (kv.2).proposal_id = kv.1

/-! ## Store lemmas -/

theorem storeLookup_storeSave (l : Store) (k : Nat) (v : Proposal) (i : Nat) :
    storeLookup (storeSave l k v) i =
      if k = i then some v else storeLookup l i := by
  induction l with
  | nil => simp [storeSave, storeLookup]
  | cons kv rest ih =>
    obtain ⟨k', v'⟩ := kv
    simp only [storeSave]
    by_cases h1 : k < k'
    · simp only [if_pos h1, storeLookup]
    · simp only [if_neg h1]
      by_cases h2 : k = k'
      · subst h2
        simp only [if_pos rfl, storeLookup]
        by_cases hi : k = i <;> simp [hi]
      · simp only [if_neg h2, storeLookup, ih]
        by_cases hki : k' = i
        · subst hki
          simp [h2]
        · simp [hki]

theorem storeLookup_mem {l : Store} {i : Nat} {p : Proposal}
    (h : storeLookup l i = some p) : (i, p) ∈ l := by
  induction l with
  | nil => simp [storeLookup] at h
  | cons kv rest ih =>
    obtain ⟨k, v⟩ := kv
    simp only [storeLookup] at h
    by_cases hk : k = i
    · subst hk
      rw [if_pos rfl] at h
      injection h with h
      subst h
      exact List.mem_cons_self _ _
    · simp only [if_neg hk] at h
      exact List.mem_cons_of_mem _ (ih h)

theorem storeLookup_storeRemove_self (l : Store) (j : Nat) :
    storeLookup (storeRemove l j) j = none := by
  induction l with
  | nil => simp [storeRemove, storeLookup]
  | cons kv rest ih =>
    obtain ⟨k, v⟩ := kv
    by_cases h : k = j
    · simpa [storeRemove, h] using ih
    · simpa [storeRemove, storeLookup, h] using ih

theorem storeLookup_storeRemove_ne (l : Store) (j i : Nat) (hne : i ≠ j) :
    storeLookup (storeRemove l j) i = storeLookup l i := by
  induction l with
  | nil => simp [storeRemove, storeLookup]
  | cons kv rest ih =>
    obtain ⟨k, v⟩ := kv
    have hji : ¬ j = i := fun hh => hne hh.symm
    by_cases h : k = j
    · have hki : ¬ k = i := fun hk => hne (hk ▸ h)
      simpa [storeRemove, storeLookup, h, hki, hji] using ih
    · by_cases hki : k = i
      · simp [storeRemove, storeLookup, h, hki, hne]
      · simpa [storeRemove, storeLookup, h, hki] using ih

theorem mem_storeSave {l : Store} {k : Nat} {v : Proposal} {x : Nat × Proposal}
    (hx : x ∈ storeSave l k v) : x = (k, v) ∨ x ∈ l := by
  induction l with
  | nil => simpa [storeSave] using hx
  | cons kv rest ih =>
    simp only [storeSave] at hx
    by_cases h1 : k < kv.1
    · simp only [if_pos h1, List.mem_cons] at hx
      rcases hx with h | h | h
      · exact Or.inl h
      · exact Or.inr (by simp [h])
      · exact Or.inr (List.mem_cons_of_mem _ h)
    · by_cases h2 : k = kv.1
      · simp only [if_neg h1, if_pos h2, List.mem_cons] at hx
        rcases hx with h | h
        · exact Or.inl (by simp [h, h2])
        · exact Or.inr (List.mem_cons_of_mem _ h)
      · simp only [if_neg h1, if_neg h2, List.mem_cons] at hx
        rcases hx with h | h
        · exact Or.inr (by simp [h])
        · rcases ih h with h' | h'
          · exact Or.inl h'
          · exact Or.inr (List.mem_cons_of_mem _ h')

theorem sorted_storeSave {l : Store} (k : Nat) (v : Proposal)
    (hs : l.Pairwise (fun a b => a.1 < b.1)) :
    (storeSave l k v).Pairwise (fun a b => a.1 < b.1) := by
  induction l with
  | nil => simp [storeSave]
  | cons kv rest ih =>
    rw [List.pairwise_cons] at hs
    obtain ⟨hall, hrest⟩ := hs
    simp only [storeSave]
    by_cases h1 : k < kv.1
    · simp only [if_pos h1]
      rw [List.pairwise_cons]
      refine ⟨?_, List.pairwise_cons.mpr ⟨hall, hrest⟩⟩
      intro b hb
      rcases List.mem_cons.mp hb with h | h
      · simpa [h] using h1
      · exact h1.trans (hall b h)
    · by_cases h2 : k = kv.1
      · simp only [if_neg h1, if_pos h2]
        rw [List.pairwise_cons]
        exact ⟨fun b hb => h2 ▸ hall b hb, hrest⟩
      · simp only [if_neg h1, if_neg h2]
        rw [List.pairwise_cons]
        refine ⟨?_, ih hrest⟩
        intro b hb
        rcases mem_storeSave hb with h | h
        · have : kv.1 < k := by omega
          simpa [h] using this
        · exact hall b h

/-! ## Stable-sort lemmas -/

theorem mem_insertMsg {m : ProposalMessage} {l : List ProposalMessage}
    {x : ProposalMessage} (hx : x ∈ insertMsg m l) : x = m ∨ x ∈ l := by
  induction l with
  | nil => simpa [insertMsg] using hx
  | cons y ys ih =>
    simp only [insertMsg] at hx
    by_cases h : m.order ≤ y.order
    · simp only [if_pos h, List.mem_cons] at hx
      rcases hx with h' | h' | h'
      · exact Or.inl h'
      · exact Or.inr (by simp [h'])
      · exact Or.inr (List.mem_cons_of_mem _ h')
    · simp only [if_neg h, List.mem_cons] at hx
      rcases hx with h' | h'
      · exact Or.inr (by simp [h'])
      · rcases ih h' with h'' | h''
        · exact Or.inl h''
        · exact Or.inr (List.mem_cons_of_mem _ h'')

theorem pairwise_insertMsg {m : ProposalMessage} {l : List ProposalMessage}
    (hs : l.Pairwise (fun a b => a.order ≤ b.order)) :
    (insertMsg m l).Pairwise (fun a b => a.order ≤ b.order) := by
  induction l with
  | nil => simp [insertMsg]
  | cons y ys ih =>
    rw [List.pairwise_cons] at hs
    obtain ⟨hall, hrest⟩ := hs
    simp only [insertMsg]
    by_cases h : m.order ≤ y.order
    · simp only [if_pos h]
      rw [List.pairwise_cons]
      refine ⟨?_, List.pairwise_cons.mpr ⟨hall, hrest⟩⟩
      intro b hb
      rcases List.mem_cons.mp hb with h' | h'
      · simpa [h'] using h
      · exact h.trans (hall b h')
    · simp only [if_neg h]
      rw [List.pairwise_cons]
      refine ⟨?_, ih hrest⟩
      intro b hb
      rcases mem_insertMsg hb with h' | h'
      · subst h'
        omega
      · exact hall b h'

theorem sortMsgs_sorted (l : List ProposalMessage) :
    (sortMsgs l).Pairwise (fun a b => a.order ≤ b.order) := by
  induction l with
  | nil => simp [sortMsgs]
  | cons x xs ih =>
    simpa [sortMsgs] using pairwise_insertMsg (by simpa [sortMsgs] using ih)

theorem filter_insertMsg (m : ProposalMessage) (l : List ProposalMessage)
    (k : Nat) :
    (insertMsg m l).filter (fun a => a.order == k) =
      if m.order = k then m :: l.filter (fun a => a.order == k)
      else l.filter (fun a => a.order == k) := by
  induction l with
  | nil =>
    by_cases h : m.order = k <;> simp [insertMsg, List.filter_cons, h]
  | cons y ys ih =>
    simp only [insertMsg]
    by_cases h : m.order ≤ y.order
    · simp only [if_pos h, List.filter_cons]
      by_cases hm : m.order = k <;> simp [hm]
    · simp only [if_neg h, List.filter_cons]
      by_cases hy : y.order = k
      · have hm : ¬ m.order = k := by omega
        simp [hy, hm, ih]
      · by_cases hm : m.order = k <;> simp [hy, hm, ih]

theorem sortMsgs_stable (l : List ProposalMessage) (k : Nat) :
    (sortMsgs l).filter (fun a => a.order == k) =
      l.filter (fun a => a.order == k) := by
  induction l with
  | nil => simp [sortMsgs]
  | cons x xs ih =>
    have : sortMsgs (x :: xs) = insertMsg x (sortMsgs xs) := rfl
    rw [this, filter_insertMsg, List.filter_cons]
    by_cases hx : x.order = k <;> simp [hx, ih]

/-! ## Concrete fixtures used by witnesses -/

/-- A concrete config: 10% required quorum, 50% required threshold. -/
def cfg1 : Config :=
  { xastro_token_addr := "xastro"
    vxastro_token_addr := none
    ibc_controller := none
    builder_unlock_addr := "builder"
    proposal_voting_period := 100
    proposal_effective_delay := 10
    proposal_expiration_period := 20
    proposal_required_deposit := 1000
    proposal_required_quorum := 10 ^ 17
    proposal_required_threshold := 5 * 10 ^ 17
    whitelisted_links := ["https://forum.astroport.fi/"] }

/-- A concrete querier: total eligible power 1,000,000, everything else zero. -/
def q1 : Querier :=
  { balanceAt := fun _ _ => 0
    totalSupplyAt := fun _ => 1000000
    allocation := fun _ => { params := { amount := 0 }
                             status := { astro_withdrawn := 0 } }
    remainingAstroTokens := 0
    userVotingPowerAt := fun _ _ => 0
    userDepositAtHeight := fun _ _ => 0
    totalVotingPowerAt := fun _ => 0
    listChannels := fun _ => [] }

/-- An active proposal with 120,000 for / 60,000 against (the §8 scenario). -/
def p1 : Proposal :=
  { proposal_id := 1
    submitter := "alice"
    status := .Active
    for_power := 120000
    against_power := 60000
    for_voters := ["bob"]
    against_voters := ["carol"]
    start_block := 50
    start_time := 5000
    end_block := 150
    title := "t"
    description := "d"
    link := none
    messages := none
    deposit_amount := 1000
    ibc_channel := none }

/-- State holding just `p1`. -/
def s1 : State := { config := cfg1, proposalCount := 1, proposals := [(1, p1)] }

/-- An environment one block past `p1`'s voting end. -/
def env1 : Env := { blockHeight := 151, blockTime := 6000,
                    contractAddress := "assembly" }

/-! ## C1: End sets Passed iff quorum and threshold clear their bounds -/

/-- C1: a proposal ended via End while Active and past its end block ends up
Passed exactly when quorum — total cast power over total eligible power,
zero when the eligible total is zero — is at least the required quorum, and
threshold — for-power over total cast power, zero when no votes were cast —
strictly exceeds the required threshold; otherwise it ends up Rejected.
Ratios are the contract's 18-decimal fixed-point values. -/
theorem end_proposal_passed_iff (q : Querier) (s : State) (env : Env)
    (id : Nat) (p : Proposal) (total : Nat)
    (hp : storeLookup s.proposals id = some p)
    (hA : p.status = .Active)
    (hb : p.end_block < env.blockHeight)
    (ht : calc_total_voting_power_at q s.config p = some total) :
    ∃ s' msgs, end_proposal q s env id = .ok (s', msgs) ∧
      ∃ p', storeLookup s'.proposals id = some p' ∧
        p'.status =
          (if (s.config.proposal_required_quorum ≤
              (if total = 0 then 0
               else decFromRatio (p.for_power + p.against_power) total) ∧
            s.config.proposal_required_threshold <
              (if p.for_power + p.against_power = 0 then 0
               else decFromRatio p.for_power (p.for_power + p.against_power)))
           then ProposalStatus.Passed else ProposalStatus.Rejected) ∧
        (p'.status = .Passed ↔
          (s.config.proposal_required_quorum ≤
              (if total = 0 then 0
               else decFromRatio (p.for_power + p.against_power) total) ∧
            s.config.proposal_required_threshold <
              (if p.for_power + p.against_power = 0 then 0
               else decFromRatio p.for_power (p.for_power + p.against_power)))) := by
  have h1 : ¬ p.status ≠ ProposalStatus.Active := by simp [hA]
  have h2 : ¬ env.blockHeight ≤ p.end_block := by omega
  simp only [end_proposal, hp, h1, if_false, if_neg h2, ht, ne_eq, ite_not]
  refine ⟨_, _, rfl, ?_⟩
  refine ⟨_, by rw [storeLookup_storeSave, if_pos rfl], rfl, ?_⟩
  by_cases hc : s.config.proposal_required_quorum ≤
      (if total = 0 then 0
       else decFromRatio (p.for_power + p.against_power) total) ∧
      s.config.proposal_required_threshold <
      (if p.for_power + p.against_power = 0 then 0
       else decFromRatio p.for_power (p.for_power + p.against_power))
  · rw [if_pos hc]
    exact ⟨fun _ => hc, fun _ => rfl⟩
  · rw [if_neg hc]
    exact ⟨fun h => by simp at h, fun h => absurd h hc⟩

/-- C1 witness: the §8 scenario — electorate 1,000,000, quorum bound 0.10,
threshold bound 0.50, votes 120,000 for / 60,000 against — passes. -/
theorem end_proposal_passed_iff_witness :
    ∃ s' msgs, end_proposal q1 s1 env1 1 = .ok (s', msgs) ∧
      ∃ p', storeLookup s'.proposals 1 = some p' ∧
        p'.status =
          (if (s1.config.proposal_required_quorum ≤
              (if (1000000 : Nat) = 0 then 0
               else decFromRatio (p1.for_power + p1.against_power) 1000000) ∧
            s1.config.proposal_required_threshold <
              (if p1.for_power + p1.against_power = 0 then 0
               else decFromRatio p1.for_power
                 (p1.for_power + p1.against_power)))
           then ProposalStatus.Passed else ProposalStatus.Rejected) ∧
        (p'.status = .Passed ↔
          (s1.config.proposal_required_quorum ≤
              (if (1000000 : Nat) = 0 then 0
               else decFromRatio (p1.for_power + p1.against_power) 1000000) ∧
            s1.config.proposal_required_threshold <
              (if p1.for_power + p1.against_power = 0 then 0
               else decFromRatio p1.for_power
                 (p1.for_power + p1.against_power)))) :=
  end_proposal_passed_iff q1 s1 env1 1 p1 1000000 rfl rfl (by decide) rfl

/-! ## C3: the Execute timing window -/

/-- C3: Execute on a Passed proposal errors with the delay error strictly
before `end_block + effective_delay`, succeeds at every block from there up
to and including `end_block + effective_delay + expiration_period` (given
the other preconditions: an IBC proposal needs a configured controller), and
errors as expired strictly past that bound. -/
theorem execute_proposal_window (q : Querier) (s : State) (env : Env)
    (id : Nat) (p : Proposal)
    (hp : storeLookup s.proposals id = some p)
    (hP : p.status = .Passed)
    (hcc : p.ibc_channel = none ∨ s.config.ibc_controller ≠ none) :
    (env.blockHeight < p.end_block + s.config.proposal_effective_delay →
      execute_proposal q s env id = .error .proposalDelayNotEnded) ∧
    (p.end_block + s.config.proposal_effective_delay ≤ env.blockHeight →
      env.blockHeight ≤ p.end_block + s.config.proposal_effective_delay +
        s.config.proposal_expiration_period →
      (execute_proposal q s env id).isOk = true) ∧
    (p.end_block + s.config.proposal_effective_delay +
        s.config.proposal_expiration_period < env.blockHeight →
      execute_proposal q s env id = .error .executeProposalExpired) := by
  have h1 : ¬ p.status ≠ ProposalStatus.Passed := by simp [hP]
  refine ⟨?_, ?_, ?_⟩
  · intro hlt
    simp only [execute_proposal, hp, h1, if_false, if_pos hlt]
  · intro hge hle
    have h2 : ¬ env.blockHeight <
        p.end_block + s.config.proposal_effective_delay := by omega
    have h3 : ¬ (p.end_block + s.config.proposal_effective_delay +
        s.config.proposal_expiration_period < env.blockHeight) := by omega
    simp only [execute_proposal, hp, h1, if_false, if_neg h2, if_neg h3]
    cases hch : p.ibc_channel with
    | none =>
      cases p.messages <;> simp [Except.isOk, Except.toBool]
    | some ch =>
      rcases hcc with hcc | hcc
      · rw [hch] at hcc
        cases hcc
      · cases hctrl : s.config.ibc_controller with
        | none => exact absurd hctrl hcc
        | some ctrl =>
          cases p.messages <;> simp [hctrl, Except.isOk, Except.toBool]
  · intro hgt
    have h2 : ¬ env.blockHeight <
        p.end_block + s.config.proposal_effective_delay := by omega
    simp only [execute_proposal, hp, h1, if_false, if_neg h2, if_pos hgt]

/-- A Passed copy of `p1`. -/
def p3 : Proposal := { p1 with status := .Passed }

/-- State holding just `p3`. -/
def s3 : State := { config := cfg1, proposalCount := 1, proposals := [(1, p3)] }

/-- Environment inside `p3`'s execution window. -/
def env3 : Env := { blockHeight := 165, blockTime := 6000,
                    contractAddress := "assembly" }

/-- C3 witness: with end block 150, delay 10 and expiration 20, the window
claims are available at the concrete instance (block 165 sits inside the
window, so the success conjunct is exercised). -/
theorem execute_proposal_window_witness :
    (env3.blockHeight < p3.end_block + s3.config.proposal_effective_delay →
      execute_proposal q1 s3 env3 1 = .error .proposalDelayNotEnded) ∧
    (p3.end_block + s3.config.proposal_effective_delay ≤ env3.blockHeight →
      env3.blockHeight ≤ p3.end_block + s3.config.proposal_effective_delay +
        s3.config.proposal_expiration_period →
      (execute_proposal q1 s3 env3 1).isOk = true) ∧
    (p3.end_block + s3.config.proposal_effective_delay +
        s3.config.proposal_expiration_period < env3.blockHeight →
      execute_proposal q1 s3 env3 1 = .error .executeProposalExpired) :=
  execute_proposal_window q1 s3 env3 1 p3 rfl rfl (Or.inl rfl)

/-! ## Checked-arithmetic inversion lemmas -/

theorem checkedAdd_eq_some {a b c : Nat} (h : checkedAdd a b = some c) :
    c = a + b ∧ a + b < U128 := by
  unfold checkedAdd at h
  split at h
  · exact ⟨(Option.some.injEq _ _).mp h.symm, by assumption⟩
  · cases h

theorem checkedSub_eq_some {a b c : Nat} (h : checkedSub a b = some c) :
    c = a - b ∧ b ≤ a := by
  unfold checkedSub at h
  split at h
  · exact ⟨(Option.some.injEq _ _).mp h.symm, by assumption⟩
  · cases h

/-! ## C2: voting power is the sum of the three sources -/

/-- C2: when the voting-power computation succeeds, the result is the sum of
(a) the xASTRO balance snapshot (the `BalanceAt` query keyed by
`start_block` returns the checkpoint of `start_block - 1`), (b) the
allocation amount minus the withdrawn amount when a non-zero allocation
exists, and (c) — when the voting escrow is configured — the escrow
voting-power snapshot at `start_time - 1` plus the escrow-locked tokens at
`start_block`. The withdrawn-at-most-allocated hypothesis is the
builder-unlock ledger's own invariant. -/
theorem calc_voting_power_sum (q : Querier) (config : Config) (sender : String)
    (p : Proposal) (t : Nat)
    (hwd : (q.allocation sender).status.astro_withdrawn ≤
      (q.allocation sender).params.amount)
    (hok : calc_voting_power q config sender p = some t) :
    t = q.balanceAt sender p.start_block +
        (if (q.allocation sender).params.amount = 0 then 0
         else (q.allocation sender).params.amount -
           (q.allocation sender).status.astro_withdrawn) +
        (match config.vxastro_token_addr with
         | some _ => q.userVotingPowerAt sender (p.start_time - 1) +
             q.userDepositAtHeight sender p.start_block
         | none => 0) := by
  cases hv : config.vxastro_token_addr with
  | none =>
    simp only [calc_voting_power, hv] at hok
    simp only [hv]
    by_cases ha : (q.allocation sender).params.amount = 0
    · simp [ha] at hok
      simp [ha]
      omega
    · rw [if_pos ha] at hok
      rcases Option.bind_eq_some.mp hok with ⟨u, hu, hw⟩
      obtain ⟨h1, -⟩ := checkedAdd_eq_some hu
      obtain ⟨h2, h3⟩ := checkedSub_eq_some hw
      simp [ha]
      omega
  | some vx =>
    simp only [calc_voting_power, hv] at hok
    simp only [hv]
    rcases Option.bind_eq_some.mp hok with ⟨u, hu, hrest⟩
    rcases Option.bind_eq_some.mp hrest with ⟨u2, hu2, hu3⟩
    obtain ⟨h3, -⟩ := checkedAdd_eq_some hu3
    have hu2' : u2 = u + q.userVotingPowerAt sender (p.start_time - 1) := by
      by_cases hz : q.userVotingPowerAt sender (p.start_time - 1) = 0
      · rw [hz] at hu2 ⊢
        simp at hu2
        omega
      · rw [if_pos hz] at hu2
        exact (checkedAdd_eq_some hu2).1
    by_cases ha : (q.allocation sender).params.amount = 0
    · simp [ha] at hu
      simp [ha]
      omega
    · rw [if_pos ha] at hu
      rcases Option.bind_eq_some.mp hu with ⟨u0, hu0, hw0⟩
      obtain ⟨h1, -⟩ := checkedAdd_eq_some hu0
      obtain ⟨h2, h4⟩ := checkedSub_eq_some hw0
      simp [ha]
      omega

/-- Config with the voting escrow configured. -/
def cfg2 : Config := { cfg1 with vxastro_token_addr := some "vxastro" }

/-- Querier with balance 100, allocation 50 (20 withdrawn), escrow power 7
and escrow deposit 3. -/
def q2 : Querier :=
  { balanceAt := fun _ _ => 100
    totalSupplyAt := fun _ => 1000000
    allocation := fun _ => { params := { amount := 50 }
                             status := { astro_withdrawn := 20 } }
    remainingAstroTokens := 0
    userVotingPowerAt := fun _ _ => 7
    userDepositAtHeight := fun _ _ => 3
    totalVotingPowerAt := fun _ => 0
    listChannels := fun _ => [] }

/-- C2 witness: 100 + (50 - 20) + (7 + 3) = 140 at a concrete instance. -/
theorem calc_voting_power_sum_witness :
    (140 : Nat) = q2.balanceAt "dave" p1.start_block +
        (if (q2.allocation "dave").params.amount = 0 then 0
         else (q2.allocation "dave").params.amount -
           (q2.allocation "dave").status.astro_withdrawn) +
        (match cfg2.vxastro_token_addr with
         | some _ => q2.userVotingPowerAt "dave" (p1.start_time - 1) +
             q2.userDepositAtHeight "dave" p1.start_block
         | none => 0) :=
  calc_voting_power_sum q2 cfg2 "dave" p1 140 (by decide) (by decide)

/-! ## C7: the remote-completion callback -/

/-- C7: the IBC completion callback succeeds exactly when the caller is the
configured controller, the proposal is InProgress and the reported status is
Executed or Failed; on success the reported status is stored (and nothing is
emitted), and any other combination is an error (which, transactionally,
leaves the proposal unchanged). -/
theorem update_ibc_proposal_status_spec (s : State) (info : MsgInfo) (id : Nat)
    (st : ProposalStatus) (p : Proposal)
    (hp : storeLookup s.proposals id = some p) :
    ((update_ibc_proposal_status s info id st).isOk = true ↔
      (s.config.ibc_controller = some info.sender ∧ p.status = .InProgress ∧
        (st = .Executed ∨ st = .Failed))) ∧
    (∀ out, update_ibc_proposal_status s info id st = .ok out →
      storeLookup out.1.proposals id = some { p with status := st } ∧
        out.2 = []) := by
  by_cases hctrl : s.config.ibc_controller = some info.sender
  · by_cases hip : p.status = ProposalStatus.InProgress
    · have h1 : ¬ p.status ≠ ProposalStatus.InProgress := by simp [hip]
      constructor
      · simp only [update_ibc_proposal_status, if_pos hctrl, hp, h1, if_false]
        cases st <;>
          simp [hctrl, hip, Except.isOk, Except.toBool]
      · intro out hout
        simp only [update_ibc_proposal_status, if_pos hctrl, hp, h1,
          if_false] at hout
        cases st <;> simp at hout
        all_goals
          subst hout
          simp [storeLookup_storeSave]
    · have h1 : p.status ≠ ProposalStatus.InProgress := hip
      constructor
      · simp only [update_ibc_proposal_status, if_pos hctrl, hp, if_pos h1]
        simp [hip, Except.isOk, Except.toBool]
      · intro out hout
        simp only [update_ibc_proposal_status, if_pos hctrl, hp,
          if_pos h1] at hout
        cases hout
  · constructor
    · simp only [update_ibc_proposal_status, if_neg hctrl]
      simp [hctrl, Except.isOk, Except.toBool]
    · intro out hout
      simp only [update_ibc_proposal_status, if_neg hctrl] at hout
      cases hout

/-- A proposal action with order key 2. -/
def pmA : ProposalMessage := { order := 2, msg := 11 }

/-- A proposal action with order key 1. -/
def pmB : ProposalMessage := { order := 1, msg := 22 }

/-- An InProgress IBC proposal carrying two actions. -/
def p7 : Proposal :=
  { p1 with
    status := .InProgress
    ibc_channel := some "channel-3"
    messages := some [pmA, pmB] }

/-- Config with the IBC controller configured. -/
def cfg7 : Config := { cfg1 with ibc_controller := some "controller" }

/-- State holding just `p7` under `cfg7`. -/
def s7 : State := { config := cfg7, proposalCount := 1, proposals := [(1, p7)] }

/-- C7 witness: the controller reporting Executed on the InProgress `p7`
succeeds and stores Executed. -/
theorem update_ibc_proposal_status_spec_witness :
    ((update_ibc_proposal_status s7 { sender := "controller" } 1
        .Executed).isOk = true ↔
      (s7.config.ibc_controller = some "controller" ∧
        p7.status = .InProgress ∧
        (ProposalStatus.Executed = .Executed ∨
          ProposalStatus.Executed = .Failed))) ∧
    (∀ out, update_ibc_proposal_status s7 { sender := "controller" } 1
        .Executed = .ok out →
      storeLookup out.1.proposals 1 = some { p7 with status := .Executed } ∧
        out.2 = []) :=
  update_ibc_proposal_status_spec s7 { sender := "controller" } 1
    .Executed p7 rfl

/-! ## C6: Cast Vote preconditions and effect -/

/-- C6: Cast Vote succeeds exactly when the proposal is Active, the caller is
not the submitter, the block is at most `end_block`, the caller is in
neither voter set, and the computed voting power is non-zero; on success the
power is added to the chosen side, the caller is appended to that side's
voter set, and the other side is untouched. The two bound hypotheses keep
the 128-bit tally additions from overflowing (the checked-arithmetic regime
the claim presupposes). -/
theorem cast_vote_spec (q : Querier) (s : State) (env : Env) (info : MsgInfo)
    (id : Nat) (vote : ProposalVoteOption) (p : Proposal) (vp : Nat)
    (hp : storeLookup s.proposals id = some p)
    (hvp : calc_voting_power q s.config info.sender p = some vp)
    (hof : p.for_power + vp < U128)
    (hoa : p.against_power + vp < U128) :
    ((cast_vote q s env info id vote).isOk = true ↔
      (p.status = .Active ∧ p.submitter ≠ info.sender ∧
        env.blockHeight ≤ p.end_block ∧
        info.sender ∉ p.for_voters ∧ info.sender ∉ p.against_voters ∧
        vp ≠ 0)) ∧
    (∀ out, cast_vote q s env info id vote = .ok out →
      ∃ p', storeLookup out.1.proposals id = some p' ∧
        (match vote with
         | .For => p'.for_power = p.for_power + vp ∧
             p'.for_voters = p.for_voters ++ [info.sender] ∧
             p'.against_power = p.against_power ∧
             p'.against_voters = p.against_voters
         | .Against => p'.against_power = p.against_power + vp ∧
             p'.against_voters = p.against_voters ++ [info.sender] ∧
             p'.for_power = p.for_power ∧
             p'.for_voters = p.for_voters)) := by
  by_cases h1 : p.status = ProposalStatus.Active
  · have h1' : ¬ p.status ≠ ProposalStatus.Active := by simp [h1]
    by_cases h2 : p.submitter = info.sender
    · have e : cast_vote q s env info id vote = .error .unauthorized := by
        simp only [cast_vote, hp, h1', if_false, if_pos h2]
      rw [e]
      constructor
      · simp [Except.isOk, Except.toBool, h2]
      · intro out hout
        cases hout
    · by_cases h3 : p.end_block < env.blockHeight
      · have e : cast_vote q s env info id vote =
            .error .votingPeriodEnded := by
          simp only [cast_vote, hp, h1', if_false, if_neg h2, if_pos h3]
        rw [e]
        have h3' : ¬ env.blockHeight ≤ p.end_block := by omega
        constructor
        · simp [Except.isOk, Except.toBool, h3']
        · intro out hout
          cases hout
      · by_cases h4 : (p.for_voters.contains info.sender ||
            p.against_voters.contains info.sender) = true
        · have e : cast_vote q s env info id vote =
              .error .userAlreadyVoted := by
            simp only [cast_vote, hp, h1', if_false, if_neg h2, if_neg h3,
              if_pos h4]
          rw [e]
          have hmem : info.sender ∈ p.for_voters ∨
              info.sender ∈ p.against_voters := by
            simpa using h4
          constructor
          · rcases hmem with hm | hm <;>
              simp [Except.isOk, Except.toBool, hm]
          · intro out hout
            cases hout
        · have hm1 : info.sender ∉ p.for_voters := by
            intro hm
            exact h4 (by simp [hm])
          have hm2 : info.sender ∉ p.against_voters := by
            intro hm
            exact h4 (by simp [hm])
          by_cases h5 : vp = 0
          · have e : cast_vote q s env info id vote =
                .error .noVotingPower := by
              simp only [cast_vote, hp, h1', if_false, if_neg h2, if_neg h3,
                if_neg h4, hvp, if_pos h5]
            rw [e]
            constructor
            · simp [Except.isOk, Except.toBool, h5]
            · intro out hout
              cases hout
          · cases vote with
            | For =>
              have hadd : checkedAdd p.for_power vp =
                  some (p.for_power + vp) := by
                simp [checkedAdd, hof]
              have e : cast_vote q s env info id .For = .ok
                  ({ s with proposals := storeSave s.proposals id ({ p with
                      for_power := p.for_power + vp
                      for_voters := p.for_voters ++ [info.sender] }) },
                    []) := by
                simp only [cast_vote, hp, h1', if_false, if_neg h2, if_neg h3,
                  if_neg h4, hvp, if_neg h5, hadd]
              rw [e]
              constructor
              · exact ⟨fun _ => ⟨h1, h2, by omega, hm1, hm2, h5⟩,
                  fun _ => rfl⟩
              · intro out hout
                injection hout with hout
                subst hout
                refine ⟨_, by rw [storeLookup_storeSave, if_pos rfl], ?_⟩
                exact ⟨rfl, rfl, rfl, rfl⟩
            | Against =>
              have hadd : checkedAdd p.against_power vp =
                  some (p.against_power + vp) := by
                simp [checkedAdd, hoa]
              have e : cast_vote q s env info id .Against = .ok
                  ({ s with proposals := storeSave s.proposals id ({ p with
                      against_power := p.against_power + vp
                      against_voters := p.against_voters ++ [info.sender] }) },
                    []) := by
                simp only [cast_vote, hp, h1', if_false, if_neg h2, if_neg h3,
                  if_neg h4, hvp, if_neg h5, hadd]
              rw [e]
              constructor
              · exact ⟨fun _ => ⟨h1, h2, by omega, hm1, hm2, h5⟩,
                  fun _ => rfl⟩
              · intro out hout
                injection hout with hout
                subst hout
                refine ⟨_, by rw [storeLookup_storeSave, if_pos rfl], ?_⟩
                exact ⟨rfl, rfl, rfl, rfl⟩
  · have e : cast_vote q s env info id vote = .error .proposalNotActive := by
      simp only [cast_vote, hp, if_pos (show p.status ≠ _ from h1)]
    rw [e]
    constructor
    · simp [Except.isOk, Except.toBool, h1]
    · intro out hout
      cases hout

/-- Environment during `p1`'s voting period. -/
def envVote : Env := { blockHeight := 100, blockTime := 5500,
                       contractAddress := "assembly" }

/-- C6 witness: voter with power 130 casting For on the active `p1`. -/
theorem cast_vote_spec_witness :
    ((cast_vote q2 s1 envVote { sender := "dave" } 1 .For).isOk = true ↔
      (p1.status = .Active ∧ p1.submitter ≠ "dave" ∧
        envVote.blockHeight ≤ p1.end_block ∧
        "dave" ∉ p1.for_voters ∧ "dave" ∉ p1.against_voters ∧
        (130 : Nat) ≠ 0)) ∧
    (∀ out, cast_vote q2 s1 envVote { sender := "dave" } 1 .For = .ok out →
      ∃ p', storeLookup out.1.proposals 1 = some p' ∧
        (match ProposalVoteOption.For with
         | .For => p'.for_power = p1.for_power + 130 ∧
             p'.for_voters = p1.for_voters ++ ["dave"] ∧
             p'.against_power = p1.against_power ∧
             p'.against_voters = p1.against_voters
         | .Against => p'.against_power = p1.against_power + 130 ∧
             p'.against_voters = p1.against_voters ++ ["dave"] ∧
             p'.for_power = p1.for_power ∧
             p'.for_voters = p1.for_voters)) :=
  cast_vote_spec q2 s1 envVote { sender := "dave" } 1 .For p1 130 rfl
    (by decide) (by decide) (by decide)

/-! ## Success-shape inversion lemmas for the entry points -/

theorem submit_proposal_ok_shape {q : Querier} {s : State} {env : Env}
    {info : MsgInfo} {sender : String} {amount : Nat}
    {title description : String} {link : Option String}
    {msgs : Option (List ProposalMessage)} {ch : Option String}
    {out : State × List OutMsg}
    (h : submit_proposal q s env info sender amount title description link
      msgs ch = .ok out) :
    out = ({ s with
        proposalCount := s.proposalCount + 1
        proposals := (storeSave s.proposals (s.proposalCount + 1)
          (submittedProposal s env sender amount title description link
            msgs ch)) },
      []) := by
  simp only [submit_proposal] at h
  repeat' split at h
  all_goals try cases h
  all_goals rfl

theorem cast_vote_ok_shape {q : Querier} {s : State} {env : Env}
    {info : MsgInfo} {pid : Nat} {vote : ProposalVoteOption}
    {out : State × List OutMsg}
    (h : cast_vote q s env info pid vote = .ok out) :
    ∃ p0 pn, storeLookup s.proposals pid = some p0 ∧
      p0.status = .Active ∧
      out.1 = { s with proposals := storeSave s.proposals pid pn } := by
  simp only [cast_vote] at h
  cases e : storeLookup s.proposals pid with
  | none =>
    simp only [e] at h
    cases h
  | some p0 =>
    simp only [e] at h
    by_cases hst : p0.status ≠ ProposalStatus.Active
    · rw [if_pos hst] at h
      cases h
    · rw [if_neg hst] at h
      have hA : p0.status = ProposalStatus.Active := not_not.mp hst
      repeat' split at h
      all_goals try cases h
      all_goals exact ⟨p0, _, rfl, hA, rfl⟩

theorem end_proposal_ok_shape {q : Querier} {s : State} {env : Env}
    {pid : Nat} {out : State × List OutMsg}
    (h : end_proposal q s env pid = .ok out) :
    ∃ p0 pn, storeLookup s.proposals pid = some p0 ∧
      p0.status = .Active ∧
      out.1 = { s with proposals := storeSave s.proposals pid pn } := by
  simp only [end_proposal] at h
  cases e : storeLookup s.proposals pid with
  | none =>
    simp only [e] at h
    cases h
  | some p0 =>
    simp only [e] at h
    by_cases hst : p0.status ≠ ProposalStatus.Active
    · rw [if_pos hst] at h
      cases h
    · rw [if_neg hst] at h
      have hA : p0.status = ProposalStatus.Active := not_not.mp hst
      repeat' split at h
      all_goals try cases h
      all_goals exact ⟨p0, _, rfl, hA, rfl⟩

theorem execute_proposal_ok_shape {q : Querier} {s : State} {env : Env}
    {pid : Nat} {out : State × List OutMsg}
    (h : execute_proposal q s env pid = .ok out) :
    ∃ p0 pn, storeLookup s.proposals pid = some p0 ∧
      p0.status = .Passed ∧
      out.1 = { s with proposals := storeSave s.proposals pid pn } := by
  simp only [execute_proposal] at h
  cases e : storeLookup s.proposals pid with
  | none =>
    simp only [e] at h
    cases h
  | some p0 =>
    simp only [e] at h
    by_cases hst : p0.status ≠ ProposalStatus.Passed
    · rw [if_pos hst] at h
      cases h
    · rw [if_neg hst] at h
      have hA : p0.status = ProposalStatus.Passed := not_not.mp hst
      repeat' split at h
      all_goals try cases h
      all_goals exact ⟨p0, _, rfl, hA, rfl⟩

/-- Full input-output characterization of `remove_completed_proposal` on a
stored proposal: relabel past the boundary regardless of status, then delete
exactly when Expired or Rejected. -/
theorem remove_completed_cases (s : State) (env : Env) (id : Nat)
    (p : Proposal) (hp : storeLookup s.proposals id = some p) :
    remove_completed_proposal s env id =
      (if p.end_block + s.config.proposal_effective_delay +
            s.config.proposal_expiration_period < env.blockHeight ∨
          p.status = .Expired ∨ p.status = .Rejected then
        .ok ({ s with proposals := storeRemove s.proposals id }, [])
      else .error .proposalNotCompleted) := by
  simp only [remove_completed_proposal, hp]
  by_cases hpast : p.end_block + s.config.proposal_effective_delay +
      s.config.proposal_expiration_period < env.blockHeight
  · rw [if_pos hpast, if_pos (Or.inl hpast)]
    simp
  · rw [if_neg hpast]
    by_cases hE : p.status = ProposalStatus.Expired
    · rw [if_pos (Or.inr (Or.inl hE))]
      simp [hE]
    · by_cases hR : p.status = ProposalStatus.Rejected
      · rw [if_pos (Or.inr (Or.inr hR))]
        simp [hR, hE]
      · have : ¬ (p.end_block + s.config.proposal_effective_delay +
            s.config.proposal_expiration_period < env.blockHeight ∨
            p.status = ProposalStatus.Expired ∨
            p.status = ProposalStatus.Rejected) := by
          tauto
        rw [if_neg this, if_pos ⟨hE, hR⟩]

theorem remove_completed_ok_shape {s : State} {env : Env} {pid : Nat}
    {out : State × List OutMsg}
    (h : remove_completed_proposal s env pid = .ok out) :
    ∃ p0, storeLookup s.proposals pid = some p0 ∧
      out.1 = { s with proposals := storeRemove s.proposals pid } ∧
      (p0.end_block + s.config.proposal_effective_delay +
          s.config.proposal_expiration_period < env.blockHeight ∨
        p0.status = .Expired ∨ p0.status = .Rejected) := by
  cases e : storeLookup s.proposals pid with
  | none =>
    simp only [remove_completed_proposal, e] at h
    cases h
  | some p0 =>
    rw [remove_completed_cases s env pid p0 e] at h
    split at h
    · exact ⟨p0, rfl, by rw [← Except.ok.inj h], by assumption⟩
    · cases h

theorem update_config_ok_shape {s : State} {env : Env} {info : MsgInfo}
    {u : UpdateConfigMsg} {out : State × List OutMsg}
    (h : update_config s env info u = .ok out) :
    out.1.proposals = s.proposals ∧ out.1.proposalCount = s.proposalCount := by
  simp only [update_config, updateConfigRest] at h
  repeat' split at h
  all_goals try cases h
  all_goals exact ⟨rfl, rfl⟩

theorem update_ibc_ok_shape {s : State} {info : MsgInfo} {pid : Nat}
    {st : ProposalStatus} {out : State × List OutMsg}
    (h : update_ibc_proposal_status s info pid st = .ok out) :
    ∃ p0 pn, storeLookup s.proposals pid = some p0 ∧
      out.1 = { s with proposals := storeSave s.proposals pid pn } := by
  simp only [update_ibc_proposal_status] at h
  cases e : storeLookup s.proposals pid with
  | none =>
    simp only [e] at h
    repeat' split at h
    all_goals cases h
  | some p0 =>
    simp only [e] at h
    repeat' split at h
    all_goals try cases h
    all_goals exact ⟨p0, _, rfl, rfl⟩

/-! ## C4: Remove Completed (corrected) -/

/-- An Executed proposal (not Active, Expired or Rejected). -/
def p4 : Proposal := { p1 with status := .Executed }

/-- State holding just `p4`. -/
def s4 : State := { config := cfg1, proposalCount := 1, proposals := [(1, p4)] }

/-- Environment past `p4`'s execute-expiration boundary (150+10+20 = 180). -/
def env4 : Env := { blockHeight := 200, blockTime := 9000,
                    contractAddress := "assembly" }

/-- `s4` with its only proposal deleted. -/
def s4removed : State := { config := cfg1, proposalCount := 1, proposals := [] }

/-- C4 counterexample: an Executed proposal past the boundary. The claim
reclassifies only Active proposals, so it predicts a not-completed error
here; the code relabels regardless of status and deletes the proposal. -/
theorem remove_completed_claim_counterexample :
    p4.status ≠ .Active ∧ p4.status ≠ .Expired ∧ p4.status ≠ .Rejected ∧
    p4.end_block + s4.config.proposal_effective_delay +
      s4.config.proposal_expiration_period < env4.blockHeight ∧
    remove_completed_proposal s4 env4 1 = .ok (s4removed, []) :=
  ⟨by decide, by decide, by decide, by decide, rfl⟩

/-- C4 (amended): Remove Completed relabels any stored proposal past the
execute-expiration boundary as Expired regardless of its current status;
it then deletes the proposal exactly when the possibly-relabelled status is
Expired or Rejected, and fails with the not-completed error otherwise. -/
theorem remove_completed_proposal_spec (s : State) (env : Env) (id : Nat)
    (p : Proposal) (hp : storeLookup s.proposals id = some p) :
    remove_completed_proposal s env id =
      (if p.end_block + s.config.proposal_effective_delay +
            s.config.proposal_expiration_period < env.blockHeight ∨
          p.status = .Expired ∨ p.status = .Rejected then
        .ok ({ s with proposals := storeRemove s.proposals id }, [])
      else .error .proposalNotCompleted) :=
  remove_completed_cases s env id p hp

/-- C4 witness: the amended characterization at the concrete `s4`. -/
theorem remove_completed_proposal_spec_witness :
    remove_completed_proposal s4 env4 1 =
      (if p4.end_block + s4.config.proposal_effective_delay +
            s4.config.proposal_expiration_period < env4.blockHeight ∨
          p4.status = .Expired ∨ p4.status = .Rejected then
        .ok ({ s4 with proposals := storeRemove s4.proposals 1 }, [])
      else .error .proposalNotCompleted) :=
  remove_completed_proposal_spec s4 env4 1 p4 rfl

/-! ## C5: persistence of InProgress proposals (corrected) -/

/-- An InProgress IBC proposal with one action. -/
def p5 : Proposal :=
  { p1 with
    status := .InProgress
    ibc_channel := some "channel-3"
    messages := some [pmA] }

/-- State holding just `p5` under the controller-enabled config. -/
def s5 : State := { config := cfg7, proposalCount := 1, proposals := [(1, p5)] }

/-- `s5` with its only proposal deleted. -/
def s5removed : State := { config := cfg7, proposalCount := 1, proposals := [] }

/-- C5 counterexample: Remove Completed — an operation other than the
controller callback — deletes the InProgress `p5` once past the
execute-expiration boundary, so the proposal does not remain InProgress
indefinitely. -/
theorem inprogress_claim_counterexample :
    p5.status = .InProgress ∧
    (∀ st : ProposalStatus,
      ExecMsg.removeCompletedProposal 1 ≠ .ibcProposalCompleted 1 st) ∧
    executeMsg q1 s5 env4 { sender := "anyone" }
      (.removeCompletedProposal 1) = .ok (s5removed, []) ∧
    storeLookup s5removed.proposals 1 = none := by
  refine ⟨rfl, fun st h => ExecMsg.noConfusion h, rfl, rfl⟩

/-- C5 (amended): for a stored InProgress proposal, every operation other
than the controller's completion callback for it leaves it stored unchanged
— with one exception: Remove Completed once the block is past the proposal's
execute-expiration boundary, which relabels it Expired and deletes it. The
well-formedness hypothesis (ascending keys bounded by the counter) rules out
a fresh submission colliding with the stored id. -/
theorem inprogress_preserved (q : Querier) (s : State) (env : Env)
    (info : MsgInfo) (msg : ExecMsg) (id : Nat) (p : Proposal)
    (out : State × List OutMsg)
    (hwf : WF s)
    (hp : storeLookup s.proposals id = some p)
    (hst : p.status = .InProgress)
    (hnotibc : ∀ st, msg ≠ .ibcProposalCompleted id st)
    (hnotrm : msg = .removeCompletedProposal id →
      env.blockHeight ≤ p.end_block + s.config.proposal_effective_delay +
        s.config.proposal_expiration_period)
    (hok : executeMsg q s env info msg = .ok out) :
    storeLookup out.1.proposals id = some p := by
  have hid_le : id ≤ s.proposalCount := hwf.bounded _ (storeLookup_mem hp)
  cases msg with
  | receiveSubmit sender amount title description link msgs ch =>
    simp only [executeMsg] at hok
    have hsh := submit_proposal_ok_shape hok
    rw [hsh]
    rw [storeLookup_storeSave]
    have : ¬ s.proposalCount + 1 = id := by omega
    rw [if_neg this]
    exact hp
  | castVote pid vote =>
    simp only [executeMsg] at hok
    obtain ⟨p0, pn, e, hA, hout⟩ := cast_vote_ok_shape hok
    by_cases hpid : pid = id
    · subst hpid
      rw [hp] at e
      injection e with e
      rw [e] at hst
      rw [hA] at hst
      cases hst
    · rw [hout, storeLookup_storeSave, if_neg hpid]
      exact hp
  | endProposal pid =>
    simp only [executeMsg] at hok
    obtain ⟨p0, pn, e, hA, hout⟩ := end_proposal_ok_shape hok
    by_cases hpid : pid = id
    · subst hpid
      rw [hp] at e
      injection e with e
      rw [e] at hst
      rw [hA] at hst
      cases hst
    · rw [hout, storeLookup_storeSave, if_neg hpid]
      exact hp
  | executeProposal pid =>
    simp only [executeMsg] at hok
    obtain ⟨p0, pn, e, hA, hout⟩ := execute_proposal_ok_shape hok
    by_cases hpid : pid = id
    · subst hpid
      rw [hp] at e
      injection e with e
      rw [e] at hst
      rw [hA] at hst
      cases hst
    · rw [hout, storeLookup_storeSave, if_neg hpid]
      exact hp
  | checkMessages messages =>
    simp only [executeMsg, check_messages] at hok
    rw [← Except.ok.inj hok]
    exact hp
  | checkMessagesPassed =>
    simp only [executeMsg] at hok
    cases hok
  | removeCompletedProposal pid =>
    simp only [executeMsg] at hok
    by_cases hpid : pid = id
    · subst hpid
      rw [remove_completed_cases s env pid p hp] at hok
      have hle := hnotrm rfl
      have hcond : ¬ (p.end_block + s.config.proposal_effective_delay +
            s.config.proposal_expiration_period < env.blockHeight ∨
          p.status = ProposalStatus.Expired ∨
          p.status = ProposalStatus.Rejected) := by
        rw [hst]
        push_neg
        refine ⟨by omega, by simp, by simp⟩
      rw [if_neg hcond] at hok
      cases hok
    · obtain ⟨p0, e, hout, hcond⟩ := remove_completed_ok_shape hok
      rw [hout, storeLookup_storeRemove_ne s.proposals pid id
        (fun hh => hpid hh.symm)]
      exact hp
  | updateConfig u =>
    simp only [executeMsg] at hok
    obtain ⟨hpr, -⟩ := update_config_ok_shape hok
    rw [hpr]
    exact hp
  | ibcProposalCompleted pid st =>
    simp only [executeMsg] at hok
    have hpid : pid ≠ id := by
      intro hh
      exact hnotibc st (by rw [hh])
    obtain ⟨p0, pn, e, hout⟩ := update_ibc_ok_shape hok
    rw [hout, storeLookup_storeSave, if_neg hpid]
    exact hp

/-- C5 witness: a Check Messages call (not the callback, not a
past-boundary removal) leaves the InProgress `p5` stored unchanged. -/
theorem inprogress_preserved_witness :
    storeLookup ((s5, [OutMsg.checkPassedSelfCall "assembly"]) :
        State × List OutMsg).1.proposals 1 = some p5 :=
  inprogress_preserved q1 s5 env4 { sender := "someone" } (.checkMessages [])
    1 p5 (s5, [OutMsg.checkPassedSelfCall "assembly"])
    ⟨by decide, by decide, by decide⟩ rfl rfl
    (fun st h => ExecMsg.noConfusion h)
    (fun h => ExecMsg.noConfusion h) rfl

/-! ## C8: Execute's dispatch and the stable sort -/

/-- C8: a successful Execute of a Passed proposal in its window either
(no channel) stores Executed and emits the actions' opaque instructions in
stably sorted ascending order, or (channel, controller configured) stores
InProgress when an action list is attached — Executed otherwise — and emits
exactly one forwarding instruction to the controller carrying the stably
sorted action list and the proposal id, executing nothing locally. The last
two conjuncts state that the emitted order is sorted by ascending order key
and that equal-order actions keep their original relative order. -/
theorem execute_proposal_dispatch (q : Querier) (s : State) (env : Env)
    (id : Nat) (p : Proposal)
    (hp : storeLookup s.proposals id = some p)
    (hP : p.status = .Passed)
    (hd : p.end_block + s.config.proposal_effective_delay ≤ env.blockHeight)
    (he : env.blockHeight ≤ p.end_block + s.config.proposal_effective_delay +
      s.config.proposal_expiration_period) :
    (p.ibc_channel = none →
      execute_proposal q s env id = .ok
        ({ s with proposals := (storeSave s.proposals id
            { p with status := ProposalStatus.Executed }) },
          (sortMsgs (p.messages.getD [])).map
            (fun m => OutMsg.proposalMsg m.msg))) ∧
    (∀ ch ctrl, p.ibc_channel = some ch →
      s.config.ibc_controller = some ctrl →
      execute_proposal q s env id = .ok
        ({ s with proposals := (storeSave s.proposals id
            { p with status :=
              (if p.messages.isSome then ProposalStatus.InProgress
               else ProposalStatus.Executed) }) },
          (match p.messages with
           | some ms => [OutMsg.ibcExecuteProposal ctrl ch id (sortMsgs ms)]
           | none => []))) ∧
    (sortMsgs (p.messages.getD [])).Pairwise
      (fun a b => a.order ≤ b.order) ∧
    (∀ k, (sortMsgs (p.messages.getD [])).filter (fun m => m.order == k) =
      (p.messages.getD []).filter (fun m => m.order == k)) := by
  have h1 : ¬ p.status ≠ ProposalStatus.Passed := by simp [hP]
  have h2 : ¬ env.blockHeight <
      p.end_block + s.config.proposal_effective_delay := by omega
  have h3 : ¬ (p.end_block + s.config.proposal_effective_delay +
      s.config.proposal_expiration_period < env.blockHeight) := by omega
  refine ⟨?_, ?_, sortMsgs_sorted _, fun k => sortMsgs_stable _ k⟩
  · intro hch
    simp only [execute_proposal, hp, h1, if_false, if_neg h2, if_neg h3, hch]
    cases hm : p.messages <;> simp [hm, sortMsgs]
  · intro ch ctrl hch hctrl
    simp only [execute_proposal, hp, h1, if_false, if_neg h2, if_neg h3, hch,
      hctrl]
    cases hm : p.messages <;> simp [hm]

/-- A Passed IBC proposal carrying equal-order and out-of-order actions. -/
def p8 : Proposal :=
  { p1 with
    status := .Passed
    ibc_channel := some "channel-3"
    messages := some [pmA, pmB] }

/-- State holding just `p8` under the controller-enabled config. -/
def s8 : State := { config := cfg7, proposalCount := 1, proposals := [(1, p8)] }

/-- C8 witness: the dispatch characterization at the concrete `p8` inside
its execution window. -/
theorem execute_proposal_dispatch_witness :
    (p8.ibc_channel = none →
      execute_proposal q1 s8 env3 1 = .ok
        ({ s8 with proposals := (storeSave s8.proposals 1
            { p8 with status := ProposalStatus.Executed }) },
          (sortMsgs (p8.messages.getD [])).map
            (fun m => OutMsg.proposalMsg m.msg))) ∧
    (∀ ch ctrl, p8.ibc_channel = some ch →
      s8.config.ibc_controller = some ctrl →
      execute_proposal q1 s8 env3 1 = .ok
        ({ s8 with proposals := (storeSave s8.proposals 1
            { p8 with status :=
              (if p8.messages.isSome then ProposalStatus.InProgress
               else ProposalStatus.Executed) }) },
          (match p8.messages with
           | some ms => [OutMsg.ibcExecuteProposal ctrl ch 1 (sortMsgs ms)]
           | none => []))) ∧
    (sortMsgs (p8.messages.getD [])).Pairwise
      (fun a b => a.order ≤ b.order) ∧
    (∀ k, (sortMsgs (p8.messages.getD [])).filter (fun m => m.order == k) =
      (p8.messages.getD []).filter (fun m => m.order == k)) :=
  execute_proposal_dispatch q1 s8 env3 1 p8 rfl rfl (by decide) (by decide)

/-! ## C9/C10 helper lemmas on the sorted store -/

theorem storeLookup_of_mem {l : Store} {nid : Nat} {np : Proposal}
    (hs : l.Pairwise (fun a b => a.1 < b.1)) (hmem : (nid, np) ∈ l) :
    storeLookup l nid = some np := by
  induction l with
  | nil => cases hmem
  | cons kv rest ih =>
    obtain ⟨k, v⟩ := kv
    rw [List.pairwise_cons] at hs
    obtain ⟨hall, hrest⟩ := hs
    rcases List.mem_cons.mp hmem with h | h
    · have h1 : nid = k := congrArg Prod.fst h
      have h2 : np = v := congrArg Prod.snd h
      simp [storeLookup, h1.symm, h2]
    · have hk : k < nid := hall _ h
      have hne : ¬ k = nid := by omega
      simp only [storeLookup, if_neg hne]
      exact ih hrest h

theorem values_filter_eq_singleton {l : Store} {nid : Nat} {np : Proposal}
    (hs : l.Pairwise (fun a b => a.1 < b.1))
    (hkeyed : ∀ kv ∈ l, (kv.2).proposal_id = kv.1)
    (hmem : storeLookup l nid = some np) :
    (l.map (·.2)).filter (fun pr => pr.proposal_id == nid) = [np] := by
  induction l with
  | nil => simp [storeLookup] at hmem
  | cons kv rest ih =>
    obtain ⟨k, v⟩ := kv
    rw [List.pairwise_cons] at hs
    obtain ⟨hall, hrest⟩ := hs
    have hkeyhead : v.proposal_id = k := hkeyed (k, v) (by simp)
    by_cases hk : k = nid
    · subst hk
      rw [storeLookup, if_pos rfl] at hmem
      injection hmem with hmem
      subst hmem
      simp only [List.map_cons, List.filter_cons, hkeyhead, beq_self_eq_true,
        if_true]
      have hnil : (rest.map (·.2)).filter
          (fun pr => pr.proposal_id == k) = [] := by
        rw [List.filter_eq_nil_iff]
        intro pr hpr
        rcases List.mem_map.mp hpr with ⟨kv', hkv', hpr'⟩
        have hid : (kv'.2).proposal_id = kv'.1 :=
          hkeyed kv' (List.mem_cons_of_mem _ hkv')
        have hgt : k < kv'.1 := hall _ hkv'
        rw [← hpr', hid]
        simp
        omega
      rw [hnil]
    · rw [storeLookup, if_neg hk] at hmem
      have hcond : ¬ (v.proposal_id == nid) = true := by
        simp [hkeyhead, hk]
      simp only [List.map_cons, List.filter_cons, if_neg hcond]
      exact ih hrest (fun kv h => hkeyed kv (List.mem_cons_of_mem _ h)) hmem

theorem filter_ge_head {l : Store} {sid : Nat} {p : Proposal}
    (hs : l.Pairwise (fun a b => a.1 < b.1))
    (hp : storeLookup l sid = some p) :
    (l.filter (fun kv => sid ≤ kv.1)).head? = some (sid, p) := by
  induction l with
  | nil => simp [storeLookup] at hp
  | cons kv rest ih =>
    obtain ⟨k, v⟩ := kv
    rw [List.pairwise_cons] at hs
    obtain ⟨hall, hrest⟩ := hs
    by_cases hk : k = sid
    · subst hk
      rw [storeLookup, if_pos rfl] at hp
      injection hp with hp
      subst hp
      simp [List.filter_cons]
    · rw [storeLookup, if_neg hk] at hp
      have hmem := storeLookup_mem hp
      have hlt : k < sid := by
        by_contra hge
        have h2 : sid < k := by omega
        have := hall _ hmem
        omega
      have hnle : ¬ (sid ≤ k) := by omega
      simp only [List.filter_cons]
      rw [if_neg (by simpa using hnle)]
      exact ih hrest hp

theorem head?_take_pos {α : Type} (l : List α) (n : Nat) (h : 1 ≤ n) :
    (l.take n).head? = l.head? := by
  cases l with
  | nil => simp
  | cons a rest =>
    cases n with
    | zero => omega
    | succ m => simp [List.take]

/-! ## C9: submit / paginated-list round trip -/

/-- C9: after a successful submission, the new proposal is stored under the
fresh id `proposalCount + 1` with exactly the submitted field values, and any
paginated listing whose window covers the new id (its start bound at most
the new id and the page size accommodating every entry from the start bound
on) returns it exactly once, identical to what was stored. -/
theorem submit_then_query_roundtrip (q : Querier) (s : State) (env : Env)
    (info : MsgInfo) (sender : String) (amount : Nat)
    (title description : String) (link : Option String)
    (msgs : Option (List ProposalMessage)) (ch : Option String)
    (out : State × List OutMsg)
    (hwf : WF s)
    (hok : submit_proposal q s env info sender amount title description link
      msgs ch = .ok out) :
    storeLookup out.1.proposals (s.proposalCount + 1) =
      some (submittedProposal s env sender amount title description link
        msgs ch) ∧
    ∀ start limit,
      (match start with
       | none => out.1.proposals.length ≤
           min (limit.getD DEFAULT_LIMIT) MAX_LIMIT
       | some st => st ≤ s.proposalCount + 1 ∧
           (storeRange out.1.proposals (some st)).length ≤
             min (limit.getD DEFAULT_LIMIT) MAX_LIMIT) →
      (query_proposals out.1 start limit).proposal_list.filter
          (fun pr => pr.proposal_id == s.proposalCount + 1) =
        [submittedProposal s env sender amount title description link
          msgs ch] := by
  have hsh := submit_proposal_ok_shape hok
  have hprops : out.1.proposals = storeSave s.proposals (s.proposalCount + 1)
      (submittedProposal s env sender amount title description link msgs
        ch) := by
    rw [hsh]
  have hsorted' : (out.1.proposals).Pairwise (fun a b => a.1 < b.1) := by
    rw [hprops]
    exact sorted_storeSave _ _ hwf.sorted
  have hkeyed' : ∀ kv ∈ out.1.proposals, (kv.2).proposal_id = kv.1 := by
    rw [hprops]
    intro kv hkv
    rcases mem_storeSave hkv with h | h
    · rw [h]
      simp [submittedProposal]
    · exact hwf.keyed kv h
  have hlk : storeLookup out.1.proposals (s.proposalCount + 1) =
      some (submittedProposal s env sender amount title description link
        msgs ch) := by
    rw [hprops, storeLookup_storeSave, if_pos rfl]
  refine ⟨hlk, ?_⟩
  intro start limit hcov
  cases start with
  | none =>
    simp only [query_proposals, storeRange]
    rw [List.take_of_length_le hcov]
    exact values_filter_eq_singleton hsorted' hkeyed' hlk
  | some st =>
    obtain ⟨hst, hlen⟩ := hcov
    simp only [query_proposals, storeRange] at hlen ⊢
    rw [List.take_of_length_le hlen]
    have hsub : (out.1.proposals.filter (fun kv => st ≤ kv.1)).Sublist
        out.1.proposals := List.filter_sublist _
    have hsorted'' := hsorted'.sublist hsub
    have hkeyed'' : ∀ kv ∈ out.1.proposals.filter (fun kv => st ≤ kv.1),
        (kv.2).proposal_id = kv.1 := by
      intro kv hkv
      exact hkeyed' kv (List.mem_of_mem_filter hkv)
    have hmem' : (s.proposalCount + 1,
        submittedProposal s env sender amount title description link msgs ch)
        ∈ out.1.proposals.filter (fun kv => st ≤ kv.1) := by
      refine List.mem_filter.mpr ⟨storeLookup_mem hlk, ?_⟩
      simpa using hst
    exact values_filter_eq_singleton hsorted'' hkeyed''
      (storeLookup_of_mem hsorted'' hmem')

/-- The proposal produced by the witness submission. -/
def np9 : Proposal := submittedProposal s1 env1 "eve" 1000 "t2" "d2" none
  none none

/-- The state-and-output pair produced by the witness submission. -/
def out9 : State × List OutMsg :=
  ({ config := cfg1, proposalCount := 2,
     proposals := storeSave s1.proposals 2 np9 }, [])

/-- C9 witness: submitting over `s1` (one stored proposal, counter 1) stores
the new proposal under id 2, and every covering page returns it once. -/
theorem submit_then_query_roundtrip_witness :
    storeLookup out9.1.proposals (s1.proposalCount + 1) =
      some (submittedProposal s1 env1 "eve" 1000 "t2" "d2" none none none) ∧
    ∀ start limit,
      (match start with
       | none => out9.1.proposals.length ≤
           min (limit.getD DEFAULT_LIMIT) MAX_LIMIT
       | some st => st ≤ s1.proposalCount + 1 ∧
           (storeRange out9.1.proposals (some st)).length ≤
             min (limit.getD DEFAULT_LIMIT) MAX_LIMIT) →
      (query_proposals out9.1 start limit).proposal_list.filter
          (fun pr => pr.proposal_id == s1.proposalCount + 1) =
        [submittedProposal s1 env1 "eve" 1000 "t2" "d2" none none none] :=
  submit_then_query_roundtrip q1 s1 env1 { sender := "xastro" } "eve" 1000
    "t2" "d2" none none none out9 ⟨by decide, by decide, by decide⟩ rfl

/-! ## C10: the pagination start bound is inclusive -/

/-- C10: for a stored proposal id, querying the paginated list with
`start = some id` (and a non-zero effective page size) returns that very
proposal as the first element — the bound is inclusive, so resuming
pagination from the last-returned id repeats it. -/
theorem query_proposals_start_inclusive (s : State) (sid : Nat) (p : Proposal)
    (limit : Option Nat)
    (hwf : WF s)
    (hp : storeLookup s.proposals sid = some p)
    (hl : 1 ≤ min (limit.getD DEFAULT_LIMIT) MAX_LIMIT) :
    (query_proposals s (some sid) limit).proposal_list.head? = some p := by
  simp only [query_proposals, storeRange]
  rw [List.head?_map, head?_take_pos _ _ hl,
    filter_ge_head hwf.sorted hp]
  rfl

/-- C10 witness: starting the listing of `s1` at the stored id 1 returns
proposal `p1` itself first. -/
theorem query_proposals_start_inclusive_witness :
    (query_proposals s1 (some 1) none).proposal_list.head? = some p1 :=
  query_proposals_start_inclusive s1 1 p1 none
    ⟨by decide, by decide, by decide⟩ rfl (by decide)
